import Mathlib

/-!
Verification of the webtmux session core against its specification.

The Go source is shallowly embedded: byte streams become `List Nat`
(each entry one byte), fallible operations return `Except`, and the
stateful stream/store operations take and return their state explicitly.
Machine integers are modelled as `Nat` with explicit `% 2 ^ w` where the
source truncates.
-/

namespace Webtmux

/-! ## WebTransport framing (src/server/wt_wrapper.go)

A WebTransport bidirectional stream is a pure byte stream, modelled as a
`List Nat` of bytes. The underlying QUIC stream is modelled as an
unbounded buffer whose writes always succeed; stream-level I/O failures
are outside the scope of the framing claims. -/

/-- Error values produced by the `wtTransport` wrapper.
`messageTooLarge` models `errors.New ("message too large for WebTransport
frame (max 65535 bytes)")`; `sizeExceedsBuffer` models
`errors.Errorf ("message size %d exceeds buffer size %d", length, len p)`
and carries both reported sizes; `unexpectedEOF` models the error returned
by `io.ReadFull` when the stream ends early. -/
inductive WtError where
  | messageTooLarge : WtError
  | sizeExceedsBuffer (msgSize bufSize : Nat) : WtError
  | unexpectedEOF : WtError
deriving Repr, DecidableEq

/-- `binary.BigEndian.PutUint16 header (uint16 n)`: the two bytes of
`n % 2 ^ 16` in big-endian order. -/
def putUint16BE (n : Nat) : List Nat :=
  [n % 2 ^ 16 / 256, n % 256]

namespace wtTransport

/-- Embedding of `wtTransport.Write` (src/server/wt_wrapper.go lines 30-53).
Takes the bytes already on the stream and the payload `p`; returns the
result of the call (number of payload bytes written, or the error) together
with the stream contents afterwards. Payloads longer than 65535 bytes are
rejected before anything is written; otherwise a 2-byte big-endian length
header and then the payload are appended to the stream. -/
def Write (stream p : List Nat) : Except WtError Nat × List Nat :=
  if p.length > 65535 then
    (Except.error WtError.messageTooLarge, stream)
  else
    (Except.ok p.length, stream ++ putUint16BE p.length ++ p)

/-- Embedding of `wtTransport.Read` (src/server/wt_wrapper.go lines 56-70).
Takes the incoming stream bytes and the length of the caller-supplied
buffer; returns the bytes delivered to the caller (the Go function fills
the buffer and returns their count) or the error, together with the bytes
left unconsumed on the stream. `io.ReadFull` of the 2-byte header is a
strict full-read, then the big-endian value `length` is compared against
the buffer size, and only then are `length` payload bytes full-read. -/
def Read (stream : List Nat) (bufLen : Nat) : Except WtError (List Nat) × List Nat :=
  match stream with
  | b0 :: b1 :: rest =>
    let length := b0 * 256 + b1
    if length > bufLen then
      (Except.error (WtError.sizeExceedsBuffer length bufLen), rest)
    else if rest.length < length then
      (Except.error WtError.unexpectedEOF, [])
    else
      (Except.ok (rest.take length), rest.drop length)
  | _ => (Except.error WtError.unexpectedEOF, [])

end wtTransport

/-! ## WebSocket transport (src/server/ws_wrapper.go)

The incoming side of a gorilla/websocket connection is modelled as the
list of data messages `NextReader` will deliver, each carrying its message
type and payload. `websocket.TextMessage = 1`, `websocket.BinaryMessage = 2`. -/

/-- One WebSocket data message as surfaced by `Conn.NextReader`. -/
structure WsFrame where
  msgType : Nat
  payload : List Nat
deriving Repr, DecidableEq

/-- `websocket.TextMessage`. -/
def textMessage : Nat := 1

/-- Error values of the `wsTransport` read path: `connClosed` models the
error `NextReader` returns once the connection is gone, and
`exceededBuffer` models `errors.New ("client message exceeded buffer size")`. -/
inductive WsError where
  | connClosed : WsError
  | exceededBuffer : WsError
deriving Repr, DecidableEq

namespace wsTransport

/-- Embedding of `wsTransport.Read` (src/server/ws_wrapper.go lines 26-47).
Takes the queue of incoming data messages and the caller buffer length;
loops over `NextReader` results, skipping every message whose type is not
`TextMessage`, and returns the first text payload (after the buffer-size
check) together with the messages still queued. An empty queue models
`NextReader` failing. -/
def Read (frames : List WsFrame) (bufLen : Nat) : Except WsError (List Nat) × List WsFrame :=
  match frames with
  | [] => (Except.error WsError.connClosed, [])
  | f :: rest =>
    if f.msgType ≠ textMessage then
      Read rest bufLen
    else if f.payload.length > bufLen then
      (Except.error WsError.exceededBuffer, rest)
    else
      (Except.ok f.payload, rest)

end wsTransport

/-! ## Auth-token store (src/server/auth_token.go)

`time.Time` is modelled as `Nat`; `now.After t` becomes `t < now`.
The Go map `map[string]authTokenInfo` is modelled as an insertion-ordered
association list whose keys are kept distinct (map semantics); the mutex
disappears because the model is sequential. The random draws produced by
`randomstring.Generate` are passed in explicitly as a list of candidate
strings, one per loop iteration. -/

/-- Embedding of `authTokenInfo`: expiry instant and optional bound IP
(empty string when unbound). -/
structure authTokenInfo where
  expiresAt : Nat
  ip : String
deriving Repr, DecidableEq

/-- The token map of `authTokenStore`, as an association list. -/
abbrev TokenStore := List (String × authTokenInfo)

/-- Go map lookup `store.tokens[token]` on the association-list model:
first entry whose key matches. -/
def lookupToken : TokenStore → String → Option authTokenInfo
  | [], _ => none
  | (k, i) :: rest, t => if k = t then some i else lookupToken rest t

/-- Go map `delete(store.tokens, token)` on the association-list model:
removes the first entry with the given key. -/
def eraseToken : TokenStore → String → TokenStore
  | [], _ => []
  | (k, i) :: rest, t => if k = t then rest else (k, i) :: eraseToken rest t

namespace authTokenStore

/-- Embedding of `authTokenStore.pruneLocked` (src/server/auth_token.go
lines 80-86): delete every entry whose expiry is strictly before `now`
(`now.After (info.expiresAt)`). -/
def pruneLocked (now : Nat) (tokens : TokenStore) : TokenStore :=
  tokens.filter (fun e => ¬ e.2.expiresAt < now)

/-- The retry loop inside `authTokenStore.issue`: take draws from
`randomstring.Generate` one at a time, skip a draw that collides with a
stored token, and insert the first fresh draw with expiry `now + ttl`.
Returns `none` when the supplied draw list is exhausted (the Go loop would
keep drawing). -/
def issueLoop : List String → TokenStore → Nat → Nat → String → Option (String × TokenStore)
  | [], _, _, _, _ => none
  | d :: ds, tokens, now, ttl, ip =>
    if (lookupToken tokens d).isSome then
      issueLoop ds tokens now ttl ip
    else
      some (d, (d, ⟨now + ttl, ip⟩) :: tokens)

/-- Embedding of `authTokenStore.issue` (src/server/auth_token.go lines
34-52): prune expired entries, then draw tokens until one does not collide
and store it bound to `ip` with expiry `now + ttl`. -/
def issue (draws : List String) (tokens : TokenStore) (now ttl : Nat) (ip : String) :
    Option (String × TokenStore) :=
  issueLoop draws (pruneLocked now tokens) now ttl ip

/-- Embedding of `authTokenStore.validate` (src/server/auth_token.go lines
54-78). Returns the boolean result together with the token map after the
call. An empty token returns false before the store is even locked; a
non-empty token first prunes, then looks up, then applies the expiry check
and the stored-IP/caller-IP comparison (skipped when either side is the
empty string). -/
def validate (tokens : TokenStore) (now : Nat) (token ip : String) : Bool × TokenStore :=
  if token = "" then
    (false, tokens)
  else
    let pruned := pruneLocked now tokens
    match lookupToken pruned token with
    | none => (false, pruned)
    | some info =>
      if info.expiresAt < now then
        (false, eraseToken pruned token)
      else if info.ip ≠ "" ∧ ip ≠ "" ∧ info.ip ≠ ip then
        (false, pruned)
      else
        (true, pruned)

end authTokenStore

/-- The two server options read by the auth path: `EnableBasicAuth` and
`AuthIPBinding` (src/server/auth_token.go lines 114-139). -/
structure AuthOptions where
  enableBasicAuth : Bool
  authIPBinding : Bool
deriving Repr, DecidableEq

namespace Server

/-- Embedding of `Server.validateAuthToken` (src/server/auth_token.go
lines 126-139). `store` is `server.authTokens`, `none` modelling a nil
pointer. When basic auth is disabled the function returns true without
consulting the store; with IP binding disabled it validates with an empty
caller IP. -/
def validateAuthToken (opts : AuthOptions) (store : Option TokenStore) (now : Nat)
    (token ip : String) : Bool :=
  if opts.enableBasicAuth = false then
    true
  else
    match store with
    | none => false
    | some tokens =>
      if opts.authIPBinding = false then
        (authTokenStore.validate tokens now token "").1
      else
        (authTokenStore.validate tokens now token ip).1

end Server

/-- The validity condition in the words of the specification sentence
behind claim C3, for comparison with `authTokenStore.validate`: the token
exists in the store, its expiry time has not passed, and — if IP binding
is enabled — the stored IP matches the caller IP. -/
def claimC3Valid (tokens : TokenStore) (now : Nat) (token ip : String)
    (ipBinding : Bool) : Prop :=
  ∃ info, lookupToken tokens token = some info ∧ ¬ info.expiresAt < now ∧
    (ipBinding = true → info.ip = ip)

/-! ## Client IP extraction (src/server/auth_token.go lines 88-112)

`clientIPFromRequest` and `ipFromAddr` are pure string functions built on
`strings.Split`, `strings.TrimSpace` and `net.SplitHostPort`, all of which
are embedded below over `List Char`. -/

/-- `unicode.IsSpace` restricted to the code points Go treats as Latin-1
space: the ASCII whitespace characters plus U+0085 and U+00A0. -/
def isGoSpace (c : Char) : Bool :=
  c = ' ' ∨ c = '\t' ∨ c = '\n' ∨ c.toNat = 11 ∨ c.toNat = 12 ∨ c = '\r' ∨
    c.toNat = 0x85 ∨ c.toNat = 0xA0

/-- `strings.TrimSpace`: remove leading and trailing white space. -/
def trimSpace (s : String) : String :=
  ⟨((s.data.dropWhile isGoSpace).reverse.dropWhile isGoSpace).reverse⟩

/-- Index of the first occurrence of a character, if any
(`strings.IndexByte`). -/
def firstIdx : List Char → Char → Option Nat
  | [], _ => none
  | a :: rest, c =>
    if a = c then some 0
    else match firstIdx rest c with
      | some j => some (j + 1)
      | none => none

/-- Index of the last occurrence of a character, if any
(`strings.LastIndexByte`). -/
def lastIdx : List Char → Char → Option Nat
  | [], _ => none
  | a :: rest, c =>
    match lastIdx rest c with
    | some j => some (j + 1)
    | none => if a = c then some 0 else none

/-- Embedding of `net.SplitHostPort`. `none` stands for any of its error
returns (missing port, too many colons, stray brackets). A leading
bracketed host must have its closing bracket immediately before the final
colon; an unbracketed host may not itself contain a colon; outside the
brackets no further bracket may appear. The port part is not validated. -/
def netSplitHostPort (s : String) : Option (String × String) :=
  let l := s.data
  match lastIdx l ':' with
  | none => none
  | some i =>
    match l.head? with
    | some '[' =>
      match firstIdx l ']' with
      | none => none
      | some e =>
        if e + 1 = l.length then none
        else if e + 1 = i then
          if (firstIdx (l.drop 1) '[').isSome then none
          else if (firstIdx (l.drop (e + 1)) ']').isSome then none
          else some (⟨(l.drop 1).take (e - 1)⟩, ⟨l.drop (i + 1)⟩)
        else none
    | _ =>
      if (firstIdx (l.take i) ':').isSome then none
      else if (firstIdx l '[').isSome then none
      else if (firstIdx l ']').isSome then none
      else some (⟨l.take i⟩, ⟨l.drop (i + 1)⟩)

/-- Embedding of `ipFromAddr` (src/server/auth_token.go lines 101-112):
host part when `net.SplitHostPort` succeeds, the trimmed address
otherwise, and the empty string for an empty address. -/
def ipFromAddr (addr : String) : String :=
  if addr = "" then ""
  else
    match netSplitHostPort addr with
    | some (host, _) => host
    | none => trimSpace addr

/-- `strings.Split (s, ",") [0]`: the prefix of `s` before its first
comma (all of `s` when it has none). -/
def splitFirstComma (s : String) : String :=
  ⟨s.data.takeWhile (fun c => c ≠ ',')⟩

/-- The slice of `http.Request` observed by the session core:
the Origin and X-Forwarded-For headers (empty string when absent, as
returned by `Header.Get`), `r.Host`, `r.RemoteAddr`, and whether the
request arrived over TLS (`r.TLS != nil`, read by none of the embedded
functions). -/
structure Request where
  origin : String
  host : String
  xForwardedFor : String
  remoteAddr : String
  tls : Bool
deriving Repr, DecidableEq

/-- Embedding of `clientIPFromRequest` (src/server/auth_token.go lines
88-99); `none` models a nil `*http.Request`. A non-empty X-Forwarded-For
header yields its first comma-separated entry, trimmed; otherwise the
socket address is reduced by `ipFromAddr`. -/
def clientIPFromRequest : Option Request → String
  | none => ""
  | some r =>
    if r.xForwardedFor ≠ "" then
      trimSpace (splitFirstComma r.xForwardedFor)
    else
      ipFromAddr r.remoteAddr

/-! ## Origin checks (src/unnamed/part_005 and src/server/wt_server.go)

`sameOrigin` parses the Origin header with `net/url` and reads only the
`Host` component of the result. The embedding below models the slice of
`url.Parse` that determines whether parsing fails and what `URL.Host`
becomes: control-character rejection, scheme splitting, query/fragment
cutting, authority extraction, and port validation. Percent-escape
validation and userinfo validation are not modelled (Origin headers carry
neither); IPv6 zone handling inside brackets is kept as the raw text. -/

/-- ASCII letter. -/
def isAlpha (c : Char) : Bool :=
  ('a' ≤ c ∧ c ≤ 'z') ∨ ('A' ≤ c ∧ c ≤ 'Z')

/-- ASCII digit. -/
def isDigit (c : Char) : Bool :=
  '0' ≤ c ∧ c ≤ '9'

/-- `stringContainsCTLByte`: an ASCII control character. -/
def isCTL (c : Char) : Bool :=
  c.toNat < 0x20 ∨ c.toNat = 0x7f

/-- Work loop of `net/url` `getScheme`: `acc` holds the scheme characters
seen so far in reverse, `orig` the whole input. Returns `none` exactly when
the input starts with a colon, and otherwise the scheme (possibly empty)
with the remainder. -/
def getSchemeAux (orig : List Char) : List Char → List Char → Option (List Char × List Char)
  | _, [] => some ([], orig)
  | acc, c :: rest =>
    if isAlpha c then getSchemeAux orig (c :: acc) rest
    else if isDigit c ∨ c = '+' ∨ c = '-' ∨ c = '.' then
      if acc = [] then some ([], orig) else getSchemeAux orig (c :: acc) rest
    else if c = ':' then
      if acc = [] then none else some (acc.reverse, rest)
    else some ([], orig)

/-- Embedding of `net/url` `getScheme`: split a leading `scheme:` off the
URL; an empty scheme before a colon is the error case. -/
def getScheme (l : List Char) : Option (List Char × List Char) :=
  getSchemeAux l [] l

/-- `net/url` `validOptionalPort`: empty, or a colon followed by digits
only. -/
def validOptionalPort (l : List Char) : Bool :=
  match l with
  | [] => true
  | c :: rest => c = ':' ∧ rest.all isDigit

/-- Embedding of `net/url` `parseHost` restricted to its accept/reject
decision: a bracketed host needs a closing bracket and a valid optional
port after it; otherwise everything after the last colon must be a valid
port. On success `URL.Host` is the input itself. -/
def parseHostModel (l : List Char) : Option (List Char) :=
  match l.head? with
  | some '[' =>
    match lastIdx l ']' with
    | none => none
    | some i => if validOptionalPort (l.drop (i + 1)) then some l else none
  | _ =>
    match lastIdx l ':' with
    | none => some l
    | some i => if validOptionalPort (l.drop i) then some l else none

/-- Embedding of `net/url` `parseAuthority` restricted to the host: drop
a userinfo part up to the last `@`, then parse the host. -/
def parseAuthorityHost (l : List Char) : Option (List Char) :=
  match lastIdx l '@' with
  | none => parseHostModel l
  | some i => parseHostModel (l.drop (i + 1))

/-- Model of `url.Parse s` restricted to the `Host` field of its result:
`none` when parsing fails, `some h` when it succeeds with `URL.Host = h`.
Follows `url.Parse`: cut the fragment, reject control characters, split
the scheme, cut the query, treat a rootless rest with a scheme as an
authority-free URL (`Host` empty), reject a colon in the
first path segment of a scheme-less relative URL, and parse the authority
of a rest starting with exactly two slashes. -/
def urlParseHost (s : String) : Option String :=
  let l := s.data.takeWhile (fun c => c ≠ '#')
  if l.any isCTL then none
  else
    match getScheme l with
    | none => none
    | some (scheme, afterScheme) =>
      let rest := afterScheme.takeWhile (fun c => c ≠ '?')
      match rest with
      | '/' :: '/' :: tail =>
        if scheme = [] ∧ (tail.head? = some '/') then some ""
        else
          match parseAuthorityHost (tail.takeWhile (fun c => c ≠ '/')) with
          | none => none
          | some h => some ⟨h⟩
      | _ =>
        if scheme ≠ [] then some ""
        else if (firstIdx (rest.takeWhile (fun c => c ≠ '/')) ':').isSome then none
        else some ""

/-- `net/url` `splitHostPort` (the method behind `URL.Hostname` and
`URL.Port`): strip a valid numeric port after the last colon, then strip
enclosing brackets from the host. -/
def urlSplitHostPort (h : String) : String × String :=
  let l := h.data
  let hp : List Char × List Char :=
    match lastIdx l ':' with
    | some i => if validOptionalPort (l.drop i) then (l.take i, l.drop (i + 1)) else (l, [])
    | none => (l, [])
  match hp.1 with
  | '[' :: t =>
    if t.getLast? = some ']' then (⟨t.take (t.length - 1)⟩, ⟨hp.2⟩) else (⟨hp.1⟩, ⟨hp.2⟩)
  | _ => (⟨hp.1⟩, ⟨hp.2⟩)

/-- `URL.Hostname`. -/
def urlHostname (h : String) : String :=
  (urlSplitHostPort h).1

/-- `URL.Port`. -/
def urlPort (h : String) : String :=
  (urlSplitHostPort h).2

/-- `strings.EqualFold` restricted to ASCII case folding. -/
def asciiEqualFold (a b : String) : Bool :=
  a.data.map Char.toLower = b.data.map Char.toLower

/-- The request host and port used by `sameOrigin`: `r.Host` split by
`net.SplitHostPort` when that succeeds, otherwise `r.Host` itself with an
empty port. -/
def reqHostOf (r : Request) : String :=
  match netSplitHostPort r.host with
  | some (h, _) => h
  | none => r.host

/-- The request port used by `sameOrigin` (empty when `r.Host` carries no
separable port). -/
def reqPortOf (r : Request) : String :=
  match netSplitHostPort r.host with
  | some (_, p) => p
  | none => ""

/-- Embedding of `sameOrigin` (src/unnamed/part_005 lines 10-36): accept
when the Origin header is empty; reject when it fails to parse; otherwise
compare the origin hostname against the request host case-insensitively
and the ports only when both are present. The scheme of the Origin and the
TLS state of the request are never consulted. -/
def sameOrigin (r : Request) : Bool :=
  if r.origin = "" then true
  else
    match urlParseHost r.origin with
    | none => false
    | some uhost =>
      if ¬ asciiEqualFold (urlHostname uhost) (reqHostOf r) then false
      else if urlPort uhost = "" ∨ reqPortOf r = "" then true
      else urlPort uhost = reqPortOf r

namespace WebTransportServer

/-- Embedding of the `CheckOrigin` closure installed by
`NewWebTransportServer` (src/server/wt_server.go lines 41-47).
`matcher` models the compiled origin regular expression, `none` when
`options.WSOrigin` is empty: with a regexp configured the Origin header
must match it; with none configured every request is accepted. -/
def CheckOrigin (matcher : Option (String → Bool)) (r : Request) : Bool :=
  match matcher with
  | some m => m r.origin
  | none => true

end WebTransportServer

/-! ## Theorems -/

/-! ### Association-list facts about the token map -/

theorem lookupToken_mem {s : TokenStore} {t : String} {i : authTokenInfo}
    (h : lookupToken s t = some i) : (t, i) ∈ s := by
  induction s with
  | nil => simp [lookupToken] at h
  | cons e rest ih =>
    obtain ⟨k, v⟩ := e
    by_cases hk : k = t
    · subst hk
      simp [lookupToken] at h
      rw [← h]
      exact List.mem_cons_self _ _
    · simp only [lookupToken, if_neg hk] at h
      exact List.mem_cons_of_mem _ (ih h)

theorem lookupToken_eq_some_iff {s : TokenStore} {t : String} {i : authTokenInfo}
    (hnd : (s.map Prod.fst).Nodup) : lookupToken s t = some i ↔ (t, i) ∈ s := by
  induction s with
  | nil => simp [lookupToken]
  | cons e rest ih =>
    obtain ⟨k, v⟩ := e
    simp only [List.map_cons, List.nodup_cons] at hnd
    by_cases hk : k = t
    · subst hk
      simp only [List.mem_cons]
      rw [show lookupToken ((k, v) :: rest) k = some v by simp [lookupToken]]
      simp only [Option.some.injEq]
      constructor
      · intro h
        exact Or.inl (by rw [h])
      · rintro (h | h)
        · injection h with h1 h2
          exact h2.symm
        · exfalso
          exact hnd.1 (List.mem_map.mpr ⟨(k, i), h, rfl⟩)
    · simp only [lookupToken, if_neg hk, List.mem_cons]
      rw [ih hnd.2]
      constructor
      · intro h
        exact Or.inr h
      · rintro (h | h)
        · injection h with h1 h2
          exact absurd h1.symm hk
        · exact h

theorem lookupToken_eq_none_iff {s : TokenStore} {t : String} :
    lookupToken s t = none ↔ t ∉ s.map Prod.fst := by
  induction s with
  | nil => simp [lookupToken]
  | cons e rest ih =>
    obtain ⟨k, v⟩ := e
    by_cases hk : k = t
    · subst hk
      simp [lookupToken]
    · simp [lookupToken, if_neg hk, ih, Ne.symm hk]

theorem mem_pruneLocked {now : Nat} {s : TokenStore} {e : String × authTokenInfo} :
    e ∈ authTokenStore.pruneLocked now s ↔ e ∈ s ∧ ¬ e.2.expiresAt < now := by
  simp [authTokenStore.pruneLocked, List.mem_filter]

theorem pruneLocked_keys_nodup (now : Nat) {s : TokenStore}
    (hnd : (s.map Prod.fst).Nodup) :
    ((authTokenStore.pruneLocked now s).map Prod.fst).Nodup :=
  ((List.filter_sublist s).map Prod.fst).nodup hnd

theorem lookupToken_pruneLocked {now : Nat} {s : TokenStore} {t : String}
    {i : authTokenInfo} (hnd : (s.map Prod.fst).Nodup) :
    lookupToken (authTokenStore.pruneLocked now s) t = some i ↔
      lookupToken s t = some i ∧ ¬ i.expiresAt < now := by
  rw [lookupToken_eq_some_iff (pruneLocked_keys_nodup now hnd),
    lookupToken_eq_some_iff hnd, mem_pruneLocked]

theorem mem_eraseToken {s : TokenStore} {t : String} {e : String × authTokenInfo}
    (h : e ∈ eraseToken s t) : e ∈ s := by
  induction s with
  | nil => simp [eraseToken] at h
  | cons a rest ih =>
    obtain ⟨k, v⟩ := a
    simp only [eraseToken] at h
    by_cases hk : k = t
    · rw [if_pos hk] at h
      exact List.mem_cons_of_mem _ h
    · rw [if_neg hk] at h
      rcases List.mem_cons.mp h with h | h
      · exact List.mem_cons.mpr (Or.inl h)
      · exact List.mem_cons_of_mem _ (ih h)

/-- Behaviour of the `issue` retry loop: a returned token is one of the
draws, was not present in the store the loop searched, and the new store
is exactly the old one with the fresh entry in front; and the loop does
return as soon as any draw is fresh. -/
theorem issueLoop_spec (draws : List String) (s : TokenStore) (now ttl : Nat)
    (ip : String) :
    (∀ t s', authTokenStore.issueLoop draws s now ttl ip = some (t, s') →
      t ∈ draws ∧ lookupToken s t = none ∧ s' = (t, ⟨now + ttl, ip⟩) :: s) ∧
    ((∃ d ∈ draws, lookupToken s d = none) →
      (authTokenStore.issueLoop draws s now ttl ip).isSome) := by
  induction draws with
  | nil =>
    constructor
    · intro t s' h
      simp [authTokenStore.issueLoop] at h
    · rintro ⟨d, hd, _⟩
      simp at hd
  | cons d ds ih =>
    constructor
    · intro t s' h
      simp only [authTokenStore.issueLoop] at h
      by_cases hc : (lookupToken s d).isSome
      · rw [if_pos hc] at h
        obtain ⟨h1, h2, h3⟩ := ih.1 t s' h
        exact ⟨List.mem_cons_of_mem _ h1, h2, h3⟩
      · rw [if_neg hc] at h
        simp only [Option.some.injEq, Prod.mk.injEq] at h
        refine ⟨?_, ?_, ?_⟩
        · rw [← h.1]
          exact List.mem_cons_self _ _
        · rw [← h.1]
          exact Option.not_isSome_iff_eq_none.mp hc
        · rw [← h.2, ← h.1]
    · rintro ⟨e, he, hnone⟩
      simp only [authTokenStore.issueLoop]
      by_cases hc : (lookupToken s d).isSome
      · rw [if_pos hc]
        apply ih.2
        rcases List.mem_cons.mp he with he | he
        · exfalso
          rw [← he] at hc
          rw [hnone] at hc
          simp at hc
        · exact ⟨e, he, hnone⟩
      · rw [if_neg hc]
        simp

/-- C1: for every payload of at most 65535 bytes and every receive buffer
at least as large, `wtTransport.Write` appends the 2-byte big-endian
length header followed by the payload to the stream and reports the
payload length, and `wtTransport.Read` applied to those bytes (with
whatever follows them on the stream) delivers exactly the payload with no
error, leaving the following bytes unconsumed. -/
theorem wt_frame_roundtrip (stream p rest : List Nat) (bufLen : Nat)
    (hsize : p.length ≤ 65535) (hbuf : p.length ≤ bufLen) :
    wtTransport.Write stream p = (Except.ok p.length, stream ++ putUint16BE p.length ++ p) ∧
    wtTransport.Read (putUint16BE p.length ++ p ++ rest) bufLen = (Except.ok p, rest) := by
  have h16 : p.length % 2 ^ 16 = p.length := Nat.mod_eq_of_lt (by omega)
  constructor
  · simp only [wtTransport.Write]
    rw [if_neg (by omega)]
  · have e1 : putUint16BE p.length ++ p ++ rest
        = (p.length / 256) :: (p.length % 256) :: (p ++ rest) := by
      simp [putUint16BE, Nat.mod_eq_of_lt (show p.length < 65536 by omega)]
    have hdecode : p.length / 256 * 256 + p.length % 256 = p.length := by
      have := Nat.div_add_mod p.length 256
      omega
    rw [e1]
    simp only [wtTransport.Read]
    rw [hdecode, if_neg (by omega), if_neg (by simp)]
    rw [List.take_left, List.drop_left]

/-- Concrete instance of `wt_frame_roundtrip`: the five bytes of "hello"
round-trip through the length-prefixed framing. -/
theorem wt_frame_roundtrip_witness :
    wtTransport.Write [] [104, 101, 108, 108, 111]
      = (Except.ok 5, [0, 5, 104, 101, 108, 108, 111]) ∧
    wtTransport.Read [0, 5, 104, 101, 108, 108, 111] 16
      = (Except.ok [104, 101, 108, 108, 111], []) := by
  have h := wt_frame_roundtrip [] [104, 101, 108, 108, 111] [] 16 (by decide) (by decide)
  simpa [putUint16BE] using h

/-- C4: a payload longer than 65535 bytes makes `wtTransport.Write` fail
with the message-too-large error while the stream keeps exactly the bytes
it had before the call. -/
theorem wt_write_too_large (stream p : List Nat) (h : p.length > 65535) :
    wtTransport.Write stream p = (Except.error WtError.messageTooLarge, stream) := by
  simp only [wtTransport.Write]
  rw [if_pos h]

/-- Concrete instance of `wt_write_too_large`: a 65536-byte payload is
rejected and the stream is untouched. -/
theorem wt_write_too_large_witness :
    wtTransport.Write [1, 2] (List.replicate 65536 0)
      = (Except.error WtError.messageTooLarge, [1, 2]) :=
  wt_write_too_large [1, 2] (List.replicate 65536 0)
    (by simp only [List.length_replicate]; omega)

/-- C5: `wtTransport.Read` consumes exactly the two header bytes and then
exactly `N` payload bytes, where `N` is the big-endian value of the
header; when `N` exceeds the caller buffer it fails with the error
carrying both sizes, having consumed only the header and delivered no
payload byte. -/
theorem wt_read_strict (b0 b1 : Nat) (rest : List Nat) (bufLen : Nat)
    (_hb0 : b0 < 256) (_hb1 : b1 < 256) :
    (b0 * 256 + b1 ≤ bufLen → b0 * 256 + b1 ≤ rest.length →
      wtTransport.Read (b0 :: b1 :: rest) bufLen
        = (Except.ok (rest.take (b0 * 256 + b1)), rest.drop (b0 * 256 + b1))) ∧
    (bufLen < b0 * 256 + b1 →
      wtTransport.Read (b0 :: b1 :: rest) bufLen
        = (Except.error (WtError.sizeExceedsBuffer (b0 * 256 + b1) bufLen), rest)) := by
  constructor
  · intro hfit havail
    simp only [wtTransport.Read]
    rw [if_neg (by omega), if_neg (by omega)]
  · intro hover
    simp only [wtTransport.Read]
    rw [if_pos (by omega)]

/-- Concrete instances of `wt_read_strict`: a 2-byte frame read into a
2-byte buffer succeeds consuming header plus payload, and a 5-byte frame
read into a 4-byte buffer fails reporting sizes 5 and 4 with the payload
left on the stream. -/
theorem wt_read_strict_witness :
    wtTransport.Read [0, 2, 9, 8, 7] 2 = (Except.ok [9, 8], [7]) ∧
    wtTransport.Read [0, 5, 1, 2, 3] 4
      = (Except.error (WtError.sizeExceedsBuffer 5 4), [1, 2, 3]) := by
  constructor
  · have h := (wt_read_strict 0 2 [9, 8, 7] 2 (by decide) (by decide)).1
      (by decide) (by decide)
    simpa using h
  · have h := (wt_read_strict 0 5 [1, 2, 3] 4 (by decide) (by decide)).2 (by decide)
    simpa using h

/-- C6: whatever `wsTransport.Read` returns successfully is the payload of
a text message; every message before it in the queue was non-text and none
of its bytes reached the caller; and a queue holding no text message at
all is consumed entirely, ending in the connection-closed error. -/
theorem ws_read_only_text (bufLen : Nat) :
    (∀ frames out rest, wsTransport.Read frames bufLen = (Except.ok out, rest) →
      ∃ pre f, frames = pre ++ f :: rest ∧ (∀ g ∈ pre, g.msgType ≠ textMessage) ∧
        f.msgType = textMessage ∧ out = f.payload) ∧
    (∀ frames, (∀ f ∈ frames, f.msgType ≠ textMessage) →
      wsTransport.Read frames bufLen = (Except.error WsError.connClosed, [])) := by
  constructor
  · intro frames
    induction frames with
    | nil =>
      intro out rest h
      simp [wsTransport.Read] at h
    | cons f fs ih =>
      intro out rest h
      by_cases hf : f.msgType = textMessage
      · simp only [wsTransport.Read, hf] at h
        rw [if_neg (by simp)] at h
        by_cases hlen : f.payload.length > bufLen
        · rw [if_pos hlen] at h
          simp at h
        · rw [if_neg hlen] at h
          simp only [Prod.mk.injEq, Except.ok.injEq] at h
          exact ⟨[], f, by simp [h.2], by simp, hf, h.1.symm⟩
      · simp only [wsTransport.Read] at h
        rw [if_pos hf] at h
        obtain ⟨pre, g, hfr, hpre, hg, hout⟩ := ih out rest h
        refine ⟨f :: pre, g, ?_, ?_, hg, hout⟩
        · simp [hfr]
        · intro x hx
          rcases List.mem_cons.mp hx with hx | hx
          · rw [hx]; exact hf
          · exact hpre x hx
  · intro frames h
    induction frames with
    | nil => simp [wsTransport.Read]
    | cons f fs ih =>
      have hf : f.msgType ≠ textMessage := h f (by simp)
      simp only [wsTransport.Read]
      rw [if_pos hf]
      exact ih (fun g hg => h g (by simp [hg]))

/-- Concrete instances of `ws_read_only_text`: a queue of two binary
messages is drained to the connection-closed error, and on a queue of one
binary then two text messages the successful read decomposes as the binary
message skipped and the first text payload returned. -/
theorem ws_read_only_text_witness :
    wsTransport.Read [⟨2, [1, 2]⟩, ⟨2, [3]⟩] 10 = (Except.error WsError.connClosed, []) ∧
    (∃ pre f, ([⟨2, [1, 2]⟩, ⟨1, [7, 8]⟩, ⟨1, [9]⟩] : List WsFrame)
        = pre ++ f :: [⟨1, [9]⟩] ∧
      (∀ g ∈ pre, g.msgType ≠ textMessage) ∧ f.msgType = textMessage ∧
      ([7, 8] : List Nat) = f.payload) := by
  constructor
  · exact (ws_read_only_text 10).2 [⟨2, [1, 2]⟩, ⟨2, [3]⟩] (by decide)
  · exact (ws_read_only_text 10).1 [⟨2, [1, 2]⟩, ⟨1, [7, 8]⟩, ⟨1, [9]⟩] [7, 8]
      [⟨1, [9]⟩] (by rfl)

/-- C3 (counterexample): with IP binding enabled, a token stored for IP
1.2.3.4 and validated with an empty caller IP is accepted by
`authTokenStore.validate`, although the stored IP does not match the
caller IP, so the claimed biconditional fails at this input. -/
theorem validate_claimC3_counterexample :
    (authTokenStore.validate [("tok", ⟨10, "1.2.3.4"⟩)] 5 "tok" "").1 = true ∧
    ¬ claimC3Valid [("tok", ⟨10, "1.2.3.4"⟩)] 5 "tok" "" true := by
  constructor
  · rfl
  · rintro ⟨info, hl, _, hip⟩
    have hinfo : (⟨10, "1.2.3.4"⟩ : authTokenInfo) = info := by
      simpa [lookupToken] using hl
    rw [← hinfo] at hip
    exact absurd (hip rfl) (by decide)

/-- C3 (amended): over a store whose keys are distinct non-empty tokens,
`authTokenStore.validate` returns true exactly when the token exists, its
expiry has not passed, and the stored IP matches the caller IP whenever
both are non-empty (an empty stored or caller IP skips the comparison);
and with basic auth disabled `Server.validateAuthToken` returns true
unconditionally. -/
theorem validate_characterization (tokens : TokenStore) (now : Nat) (token ip : String)
    (hne : ∀ e ∈ tokens, e.1 ≠ "") (hnd : (tokens.map Prod.fst).Nodup) :
    ((authTokenStore.validate tokens now token ip).1 = true ↔
      ∃ info, lookupToken tokens token = some info ∧ ¬ info.expiresAt < now ∧
        (info.ip ≠ "" → ip ≠ "" → info.ip = ip)) ∧
    (∀ opts store, opts.enableBasicAuth = false →
      Server.validateAuthToken opts store now token ip = true) := by
  constructor
  · by_cases ht : token = ""
    · subst ht
      simp only [authTokenStore.validate, if_pos rfl]
      constructor
      · intro h
        exact absurd h (by simp)
      · rintro ⟨info, hl, -, -⟩
        exact absurd rfl (hne _ (lookupToken_mem hl))
    · simp only [authTokenStore.validate, if_neg ht]
      cases hl : lookupToken (authTokenStore.pruneLocked now tokens) token with
      | none =>
        simp only []
        constructor
        · intro h
          exact absurd h (by simp)
        · rintro ⟨info, hli, hexp, -⟩
          have : lookupToken (authTokenStore.pruneLocked now tokens) token = some info :=
            (lookupToken_pruneLocked hnd).mpr ⟨hli, hexp⟩
          rw [hl] at this
          exact absurd this (by simp)
      | some info =>
        obtain ⟨hli, hexp⟩ := (lookupToken_pruneLocked hnd).mp hl
        simp only []
        rw [if_neg hexp]
        by_cases hipc : info.ip ≠ "" ∧ ip ≠ "" ∧ info.ip ≠ ip
        · rw [if_pos hipc]
          constructor
          · intro h
            exact absurd h (by simp)
          · rintro ⟨info', hli', -, hcond'⟩
            exfalso
            rw [hli] at hli'
            injection hli' with hinfo
            rw [← hinfo] at hcond'
            exact hipc.2.2 (hcond' hipc.1 hipc.2.1)
        · rw [if_neg hipc]
          constructor
          · intro _
            refine ⟨info, hli, hexp, fun h1 h2 => ?_⟩
            by_contra h3
            exact hipc ⟨h1, h2, h3⟩
          · intro _
            rfl
  · intro opts store h
    simp [Server.validateAuthToken, h]

/-- Concrete instance of `validate_characterization`: a live token bound
to the calling IP validates. -/
theorem validate_characterization_witness :
    (authTokenStore.validate [("tok", ⟨10, "1.2.3.4"⟩)] 5 "tok" "1.2.3.4").1 = true := by
  have h := (validate_characterization [("tok", ⟨10, "1.2.3.4"⟩)] 5 "tok" "1.2.3.4"
      (by decide) (by simp)).1
  exact h.mpr ⟨⟨10, "1.2.3.4"⟩, rfl, by decide, fun _ _ => rfl⟩

/-- C7: when every random draw is 32 characters long, a token returned by
`authTokenStore.issue` is 32 characters, is absent from the live (pruned)
store it was checked against, the resulting store keeps its keys distinct,
and the token maps to the freshly stored entry; moreover `issue` does
return as soon as some draw is fresh. -/
theorem issue_fresh (draws : List String) (tokens : TokenStore) (now ttl : Nat)
    (ip : String) (hlen : ∀ d ∈ draws, d.length = 32)
    (hnd : (tokens.map Prod.fst).Nodup) :
    (∀ t s', authTokenStore.issue draws tokens now ttl ip = some (t, s') →
      t.length = 32 ∧
      lookupToken (authTokenStore.pruneLocked now tokens) t = none ∧
      (s'.map Prod.fst).Nodup ∧
      lookupToken s' t = some ⟨now + ttl, ip⟩) ∧
    ((∃ d ∈ draws, lookupToken (authTokenStore.pruneLocked now tokens) d = none) →
      (authTokenStore.issue draws tokens now ttl ip).isSome) := by
  constructor
  · intro t s' h
    obtain ⟨hmem, hfresh, hs'⟩ :=
      (issueLoop_spec draws (authTokenStore.pruneLocked now tokens) now ttl ip).1 t s' h
    refine ⟨hlen t hmem, hfresh, ?_, ?_⟩
    · rw [hs']
      simp only [List.map_cons, List.nodup_cons]
      exact ⟨lookupToken_eq_none_iff.mp hfresh, pruneLocked_keys_nodup now hnd⟩
    · rw [hs']
      simp [lookupToken]
  · intro h
    exact (issueLoop_spec draws (authTokenStore.pruneLocked now tokens) now ttl ip).2 h

/-- Concrete instance of `issue_fresh`: issuing from an empty store with
one 32-character draw stores that token. -/
theorem issue_fresh_witness :
    ("abcdefghijklmnopqrstuvwxyz012345" : String).length = 32 ∧
    lookupToken (authTokenStore.pruneLocked 0 []) "abcdefghijklmnopqrstuvwxyz012345"
      = none ∧
    (([("abcdefghijklmnopqrstuvwxyz012345",
        (⟨3600, "1.2.3.4"⟩ : authTokenInfo))].map Prod.fst).Nodup) ∧
    lookupToken [("abcdefghijklmnopqrstuvwxyz012345",
        (⟨3600, "1.2.3.4"⟩ : authTokenInfo))] "abcdefghijklmnopqrstuvwxyz012345"
      = some ⟨3600, "1.2.3.4"⟩ :=
  (issue_fresh ["abcdefghijklmnopqrstuvwxyz012345"] [] 0 3600 "1.2.3.4"
    (by decide) (by simp)).1 "abcdefghijklmnopqrstuvwxyz012345"
    [("abcdefghijklmnopqrstuvwxyz012345", ⟨3600, "1.2.3.4"⟩)] rfl

/-- For a non-empty token, the store left behind by `validate` is the
pruned store or the pruned store with the looked-up token removed. -/
theorem validate_store_cases (tokens : TokenStore) (now : Nat) (token cip : String)
    (ht : token ≠ "") :
    (authTokenStore.validate tokens now token cip).2
        = authTokenStore.pruneLocked now tokens ∨
    (authTokenStore.validate tokens now token cip).2
        = eraseToken (authTokenStore.pruneLocked now tokens) token := by
  simp only [authTokenStore.validate, if_neg ht]
  cases lookupToken (authTokenStore.pruneLocked now tokens) token with
  | none => exact Or.inl rfl
  | some info =>
    by_cases hexp : info.expiresAt < now
    · right
      simp only [if_pos hexp]
    · by_cases hipc : info.ip ≠ "" ∧ cip ≠ "" ∧ info.ip ≠ cip
      · left
        simp only [if_neg hexp, if_pos hipc]
      · left
        simp only [if_neg hexp, if_neg hipc]

/-- C8 (counterexample): `authTokenStore.validate` called with an empty
token returns before pruning, so an entry expired at time 3 survives the
call made at time 5, contradicting the claim that no expired entry remains
after every validate call. -/
theorem validate_claimC8_counterexample :
    (authTokenStore.validate [("tok", ⟨3, ""⟩)] 5 "" "1.2.3.4").2
      = [("tok", ⟨3, ""⟩)] ∧
    ∃ e ∈ (authTokenStore.validate [("tok", ⟨3, ""⟩)] 5 "" "1.2.3.4").2,
      e.2.expiresAt < 5 := by
  constructor
  · rfl
  · exact ⟨("tok", ⟨3, ""⟩), by simp [authTokenStore.validate], by decide⟩

/-- C8 (amended): after every `issue` and after every `validate` call with
a non-empty token no expired entry remains in the store, and `validate`
never returns true for a token whose entry has expired (a validate call
with an empty token returns false without touching the store). -/
theorem no_expired_after_access (draws : List String) (tokens : TokenStore)
    (now ttl : Nat) (ip token cip : String) (hnd : (tokens.map Prod.fst).Nodup) :
    (∀ t s', authTokenStore.issue draws tokens now ttl ip = some (t, s') →
      ∀ e ∈ s', ¬ e.2.expiresAt < now) ∧
    (token ≠ "" → ∀ e ∈ (authTokenStore.validate tokens now token cip).2,
      ¬ e.2.expiresAt < now) ∧
    (∀ info, lookupToken tokens token = some info → info.expiresAt < now →
      (authTokenStore.validate tokens now token cip).1 = false) := by
  refine ⟨?_, ?_, ?_⟩
  · intro t s' h e he
    obtain ⟨-, -, hs'⟩ :=
      (issueLoop_spec draws (authTokenStore.pruneLocked now tokens) now ttl ip).1 t s' h
    rw [hs'] at he
    rcases List.mem_cons.mp he with he | he
    · rw [he]
      simp only []
      omega
    · exact (mem_pruneLocked.mp he).2
  · intro ht e he
    rcases validate_store_cases tokens now token cip ht with hs | hs
    · rw [hs] at he
      exact (mem_pruneLocked.mp he).2
    · rw [hs] at he
      exact (mem_pruneLocked.mp (mem_eraseToken he)).2
  · intro info hli hexp
    by_cases ht : token = ""
    · simp [authTokenStore.validate, ht]
    · simp only [authTokenStore.validate, if_neg ht]
      cases hl : lookupToken (authTokenStore.pruneLocked now tokens) token with
      | none => rfl
      | some info' =>
        obtain ⟨hli', hexp'⟩ := (lookupToken_pruneLocked hnd).mp hl
        rw [hli] at hli'
        injection hli' with hinfo
        rw [hinfo] at hexp
        exact absurd hexp hexp'

/-- Concrete instance of `no_expired_after_access`: a token that expired
at time 3 is rejected at time 5. -/
theorem no_expired_after_access_witness :
    (authTokenStore.validate [("tok", ⟨3, ""⟩)] 5 "tok" "1.2.3.4").1 = false :=
  (no_expired_after_access [] [("tok", ⟨3, ""⟩)] 5 0 "" "tok" "1.2.3.4"
    (by simp)).2.2 ⟨3, ""⟩ rfl (by decide)

/-! ### Index facts used for the address-splitting claims -/

theorem firstIdx_eq_none {l : List Char} {c : Char} (h : c ∉ l) :
    firstIdx l c = none := by
  induction l with
  | nil => rfl
  | cons a rest ih =>
    have ha : a ≠ c := by
      intro he
      exact h (he ▸ List.mem_cons_self a rest)
    simp only [firstIdx, if_neg ha]
    rw [ih (fun hm => h (List.mem_cons_of_mem a hm))]

theorem lastIdx_eq_none {l : List Char} {c : Char} (h : c ∉ l) :
    lastIdx l c = none := by
  induction l with
  | nil => rfl
  | cons a rest ih =>
    have ha : a ≠ c := by
      intro he
      exact h (he ▸ List.mem_cons_self a rest)
    simp only [lastIdx]
    rw [ih (fun hm => h (List.mem_cons_of_mem a hm))]
    simp [ha]

theorem lastIdx_append_cons (xs ys : List Char) (c : Char) (h : c ∉ ys) :
    lastIdx (xs ++ c :: ys) c = some xs.length := by
  induction xs with
  | nil =>
    simp only [List.nil_append, lastIdx]
    rw [lastIdx_eq_none h]
    simp
  | cons x xs ih =>
    simp only [List.cons_append, lastIdx, List.append_eq]
    rw [ih]
    simp

/-- C9: `clientIPFromRequest` returns the trimmed first comma-separated
entry of a non-empty X-Forwarded-For header; with that header empty it
returns `ipFromAddr` of the socket address, which is the host part when
`net.SplitHostPort` succeeds and the trimmed address when it does not; and
on an address of the shape `host:port` (neither part containing a colon or
bracket) the split does succeed with exactly that host and port. -/
theorem clientIP_spec (r : Request) :
    (r.xForwardedFor ≠ "" →
      clientIPFromRequest (some r) = trimSpace (splitFirstComma r.xForwardedFor)) ∧
    (r.xForwardedFor = "" →
      clientIPFromRequest (some r) = ipFromAddr r.remoteAddr) ∧
    (∀ h p, netSplitHostPort r.remoteAddr = some (h, p) →
      ipFromAddr r.remoteAddr = h) ∧
    (netSplitHostPort r.remoteAddr = none → r.remoteAddr ≠ "" →
      ipFromAddr r.remoteAddr = trimSpace r.remoteAddr) ∧
    (∀ host port : String,
      (∀ c ∈ host.data, c ≠ ':' ∧ c ≠ '[' ∧ c ≠ ']') →
      (∀ c ∈ port.data, c ≠ ':' ∧ c ≠ '[' ∧ c ≠ ']') →
      netSplitHostPort (host ++ ":" ++ port) = some (host, port)) := by
  refine ⟨?_, ?_, ?_, ?_, ?_⟩
  · intro hx
    simp [clientIPFromRequest, hx]
  · intro hx
    simp [clientIPFromRequest, hx]
  · intro h p hsp
    have hra : r.remoteAddr ≠ "" := by
      intro he
      rw [he] at hsp
      rw [show netSplitHostPort "" = none from rfl] at hsp
      exact absurd hsp (by simp)
    simp [ipFromAddr, hra, hsp]
  · intro hsp hra
    simp [ipFromAddr, hra, hsp]
  · intro host port hhost hport
    have hdata : (host ++ ":" ++ port).data = host.data ++ ':' :: port.data := by
      simp [String.data_append]
    have hcolon : ':' ∉ port.data := fun hc => ((hport ':' hc).1) rfl
    have hlast : lastIdx (host.data ++ ':' :: port.data) ':' = some host.data.length :=
      lastIdx_append_cons _ _ _ hcolon
    have hnolb : '[' ∉ host.data ++ ':' :: port.data := by
      intro hm
      rcases List.mem_append.mp hm with hm | hm
      · exact ((hhost '[' hm).2.1) rfl
      · rcases List.mem_cons.mp hm with hm | hm
        · exact absurd hm.symm (by decide)
        · exact ((hport '[' hm).2.1) rfl
    have hnorb : ']' ∉ host.data ++ ':' :: port.data := by
      intro hm
      rcases List.mem_append.mp hm with hm | hm
      · exact ((hhost ']' hm).2.2) rfl
      · rcases List.mem_cons.mp hm with hm | hm
        · exact absurd hm.symm (by decide)
        · exact ((hport ']' hm).2.2) rfl
    have hdrop : (host.data ++ ':' :: port.data).drop (host.data.length + 1)
        = port.data := by
      rw [show host.data ++ ':' :: port.data = (host.data ++ [':']) ++ port.data by simp,
        show host.data.length + 1 = (host.data ++ [':']).length by simp]
      exact List.drop_left _ _
    simp only [netSplitHostPort, hdata, hlast]
    split
    · rename_i hhd
      exfalso
      exact hnolb (List.mem_of_mem_head? hhd)
    · rw [show (host.data ++ ':' :: port.data).take host.data.length = host.data
          from List.take_left _ _]
      rw [firstIdx_eq_none (fun hc => ((hhost ':' hc).1) rfl),
        firstIdx_eq_none hnolb, firstIdx_eq_none hnorb]
      simp only [Option.isSome_none, Bool.false_eq_true, if_false]
      rw [hdrop]

/-- Concrete instances of `clientIP_spec`: a forwarded request yields the
first X-Forwarded-For hop trimmed, and a direct request yields the socket
host with the port stripped. -/
theorem clientIP_spec_witness :
    clientIPFromRequest (some ⟨"", "h", " 1.2.3.4 , 5.6.7.8", "9.9.9.9:80", false⟩)
      = "1.2.3.4" ∧
    netSplitHostPort ("9.9.9.9" ++ ":" ++ "80") = some ("9.9.9.9", "80") ∧
    clientIPFromRequest (some ⟨"", "h", "", "9.9.9.9:80", false⟩) = "9.9.9.9" := by
  refine ⟨?_, ?_, ?_⟩
  · have h := (clientIP_spec ⟨"", "h", " 1.2.3.4 , 5.6.7.8", "9.9.9.9:80", false⟩).1
      (by decide)
    rw [h]
    decide
  · exact (clientIP_spec ⟨"", "", "", "", false⟩).2.2.2.2 "9.9.9.9" "80"
      (by decide) (by decide)
  · have h1 := (clientIP_spec ⟨"", "h", "", "9.9.9.9:80", false⟩).2.1 rfl
    have h2 := (clientIP_spec ⟨"", "h", "", "9.9.9.9:80", false⟩).2.2.1 "9.9.9.9" "80"
      (by decide)
    rw [h1, h2]

/-- C2 (counterexample): with no origin regexp configured, a request whose
Origin fails the same-origin comparison (`sameOrigin` returns false on
origin `https://evil.example` against host `good.example`) is nevertheless
accepted by the WebTransport `CheckOrigin`; and `sameOrigin` accepts an
Origin whose host matches even though its scheme (`http`) differs from the
scheme the request was served over (TLS), so the comparison claimed to
cover the scheme does not. -/
theorem origin_policy_counterexample :
    sameOrigin ⟨"https://evil.example", "good.example", "", "", true⟩ = false ∧
    WebTransportServer.CheckOrigin none
      ⟨"https://evil.example", "good.example", "", "", true⟩ = true ∧
    sameOrigin ⟨"http://example.com", "example.com", "", "", true⟩ = true := by
  refine ⟨by decide, rfl, by decide⟩

/-- C2 (amended): with no origin regexp configured the WebTransport
`CheckOrigin` accepts every request regardless of Origin, while the
WebSocket-side `sameOrigin` check ignores the request scheme and accepts a
request with a non-empty Origin exactly when the Origin parses and its
hostname equals the request host case-insensitively with equal ports
whenever both are present. -/
theorem origin_policy_amended :
    (∀ r : Request, WebTransportServer.CheckOrigin none r = true) ∧
    (∀ (r : Request) (b : Bool), sameOrigin { r with tls := b } = sameOrigin r) ∧
    (∀ r : Request, r.origin ≠ "" →
      (sameOrigin r = true ↔
        ∃ uhost, urlParseHost r.origin = some uhost ∧
          asciiEqualFold (urlHostname uhost) (reqHostOf r) = true ∧
          (urlPort uhost = "" ∨ reqPortOf r = "" ∨ urlPort uhost = reqPortOf r))) := by
  refine ⟨fun r => rfl, fun r b => rfl, fun r hro => ?_⟩
  simp only [sameOrigin, if_neg hro]
  cases hp : urlParseHost r.origin with
  | none =>
    dsimp only
    constructor
    · intro h
      exact absurd h (by simp)
    · rintro ⟨u, hu, -, -⟩
      exact absurd hu (by simp)
  | some uhost =>
    dsimp only
    by_cases hef : asciiEqualFold (urlHostname uhost) (reqHostOf r) = true
    · rw [if_neg (by simp [hef])]
      by_cases hpt : urlPort uhost = "" ∨ reqPortOf r = ""
      · rw [if_pos hpt]
        constructor
        · intro _
          rcases hpt with hpt | hpt
          · exact ⟨uhost, rfl, hef, Or.inl hpt⟩
          · exact ⟨uhost, rfl, hef, Or.inr (Or.inl hpt)⟩
        · intro _
          rfl
      · rw [if_neg hpt]
        constructor
        · intro h
          exact ⟨uhost, rfl, hef, Or.inr (Or.inr (by simpa using h))⟩
        · rintro ⟨u, hu, -, hports⟩
          injection hu with hu
          rw [← hu] at hports
          rcases hports with h | h | h
          · exact absurd (Or.inl h) hpt
          · exact absurd (Or.inr h) hpt
          · simpa using h
    · rw [if_pos (by simp [hef])]
      constructor
      · intro h
        exact absurd h (by simp)
      · rintro ⟨u, hu, hef', -⟩
        injection hu with hu
        rw [← hu] at hef'
        exact absurd hef' hef

/-- Concrete instance of `origin_policy_amended`: an Origin whose host
matches the request host up to ASCII case with equal explicit ports is
accepted by `sameOrigin`. -/
theorem origin_policy_amended_witness :
    sameOrigin ⟨"https://APP.example:443", "app.example:443", "", "", false⟩ = true :=
  (origin_policy_amended.2.2 ⟨"https://APP.example:443", "app.example:443", "", "", false⟩
    (by decide)).mpr ⟨"APP.example:443", by decide, by decide, by decide⟩

/-- C10: a request whose Origin header is absent or empty (the Go
`Header.Get` returns the empty string in both cases) is always accepted by
`sameOrigin`. -/
theorem sameOrigin_empty_origin (r : Request) (h : r.origin = "") :
    sameOrigin r = true := by
  simp [sameOrigin, h]

/-- Concrete instance of `sameOrigin_empty_origin`: no Origin header, any
host. -/
theorem sameOrigin_empty_origin_witness :
    sameOrigin ⟨"", "example.com:8080", "", "", false⟩ = true :=
  sameOrigin_empty_origin ⟨"", "example.com:8080", "", "", false⟩ rfl

end Webtmux
